import Mathlib

/-!
Verification of the `remote-jobs` URL checker (src/main.rs).

Strings are modelled as `List Char` (`Str`); Rust `String`/`&str` values
are embedded through `String.data`.  The network is an ambient parameter:
a probe-outcome function for the URL Checker, and a per-URL step function
(redirect / response / failure) for the Prober.  `HashSet<String>` is
modelled as `Finset Str`.
-/

abbrev Str := List Char

/-- Embeds `remove_url_protocol` (src/main.rs:17-20): `Regex::replace`
with the anchored pattern matching a leading scheme token `http://` or
`https://` removes that leading token (first match only, and the pattern
is anchored at the start, so at most one removal happens). -/
def remove_url_protocol (s : Str) : Str :=
  if "https://".data.isPrefixOf s then s.drop 8
  else if "http://".data.isPrefixOf s then s.drop 7
  else s

/-- Embeds `remove_www` (src/main.rs:22-25): `Regex::replace` with the
unanchored pattern `(www\.)` removes the leftmost occurrence of the
substring `www.` (first match only — `replace`, not `replace_all`). -/
def remove_www : Str → Str
  | [] => []
  | c :: rest =>
      if "www.".data.isPrefixOf (c :: rest) then (c :: rest).drop 4
      else c :: remove_www rest

/-- Embeds `sanitize_url` (src/main.rs:27-29). -/
def sanitize_url (s : Str) : Str :=
  remove_www (remove_url_protocol s)

/-- Embeds `build_url_variations` (src/main.rs:31-44): the four fixed
scheme/host candidates, with the original URL pushed at the end iff the
vector does not already contain it. -/
def build_url_variations (u : Str) : List Str :=
  let partial_url := sanitize_url u
  let variations : List Str :=
    ["https://".data ++ partial_url,
     "https://www.".data ++ partial_url,
     "http://".data ++ partial_url,
     "http://www.".data ++ partial_url]
  if u ∈ variations then variations else variations ++ [u]

/-- One step of the ambient network seen by the Prober: requesting a URL
either yields an HTTP redirect to `target`, or any non-redirect response
(status code never inspected by the code), or a transport-level failure
(connection / timeout / DNS / malformed URL — `reqwest::Error`). -/
inductive NetStep where
  | redirect (target : Str)
  | response
  | failure
deriving DecidableEq

/-- Embeds the body of `hit_url` (src/main.rs:46-71): `final_url` starts
as the requested URL; the custom redirect policy overwrites it with each
redirect target and follows the redirect; when `send` returns `Ok` the
current `final_url` is returned, and a `reqwest::Error` propagates as
failure.  `fuel` bounds the number of redirect hops followed (the code
itself has no bound; every claim concerns finite redirect chains). -/
def hitAux (net : Str → NetStep) : Nat → Str → Str → Option Str
  | fuel, current, final_url =>
      match net current with
      | NetStep.response => some final_url
      | NetStep.failure => none
      | NetStep.redirect t =>
          match fuel with
          | 0 => none
          | n + 1 => hitAux net n t t

/-- Embeds `hit_url` (src/main.rs:46-71) for a given redirect budget. -/
def hit_url (net : Str → NetStep) (fuel : Nat) (url : Str) : Option Str :=
  hitAux net fuel url url

/-- Embeds `struct CheckedUrl` (src/main.rs:73-76). -/
structure CheckedUrl where
  is_valid : Bool
  url : Str
deriving DecidableEq

/-- The `for variation in variations` loop of `check_url`: first `Ok`
result of the probe wins, later variations are never attempted. -/
def probeList (probe : Str → Option Str) : List Str → Option Str
  | [] => none
  | v :: rest =>
      match probe v with
      | some final_url => some final_url
      | none => probeList probe rest

/-- Embeds `check_url` (src/main.rs:78-93) over an ambient probe-outcome
function (`hit_url`'s result for each candidate URL: `some finalURL` for
`Ok`, `none` for `Err`). -/
def check_url (probe : Str → Option Str) (u : Str) : CheckedUrl :=
  match probeList probe (build_url_variations u) with
  | some final_url => { is_valid := true, url := final_url }
  | none => { is_valid := false, url := u }

/-- Embeds itertools `unique()` (src/main.rs:113): keep the first
occurrence of each string. -/
def uniqueAux : List Str → List Str → List Str
  | _, [] => []
  | seen, x :: rest =>
      if x ∈ seen then uniqueAux seen rest
      else x :: uniqueAux (x :: seen) rest

/-- Deduplicated input list, first occurrences kept in order. -/
def uniqueList (l : List Str) : List Str := uniqueAux [] l

/-- Embeds `struct UrlSets` (src/main.rs:126-129); `HashSet<String>` as
`Finset Str`. -/
structure UrlSets where
  valid_urls : Finset Str
  invalid_urls : Finset Str
deriving DecidableEq

/-- Embeds the fold body (src/main.rs:131-154): one joined task result
(`some` for `Ok(CheckedUrl)`, `none` for a `tokio::JoinError`, which is
only logged) folded into the two sets. -/
def foldStep (acc : UrlSets) (r : Option CheckedUrl) : UrlSets :=
  match r with
  | some checked =>
      if checked.is_valid then
        { acc with valid_urls := insert checked.url acc.valid_urls }
      else
        { acc with invalid_urls := insert checked.url acc.invalid_urls }
  | none => acc

/-- Aggregation of a completion-ordered stream of task results
(src/main.rs:131-154). -/
def foldResults (rs : List (Option CheckedUrl)) : UrlSets :=
  rs.foldl foldStep { valid_urls := ∅, invalid_urls := ∅ }

/-- The whole pipeline of `main` on the parsed URL list (src/main.rs:
100-154): dedup, one `check_url` task per URL (`joinOk u = false` models
the task for `u` ending in a `tokio::JoinError`), fold into `UrlSets`. -/
def runChecks (probe : Str → Option Str) (joinOk : Str → Bool)
    (urls : List Str) : UrlSets :=
  foldResults ((uniqueList urls).map
    (fun u => if joinOk u then some (check_url probe u) else none))

/-- A section of the report: the set's elements sorted lexicographically
(Rust `sorted()` on `String` is byte-lexicographic, which on UTF-8 agrees
with lexicographic order on the code points; the subsequent `dedup()` is
the identity on the duplicate-free sorted output of a set). -/
def sortedEntries (s : Finset Str) : List Str :=
  Finset.sort (· ≤ ·) s

/-- `join("\n")` over section entries. -/
def joinNl (l : List Str) : Str := List.intercalate "\n".data l

/-- Embeds the report text built by `format!` (src/main.rs:157-163). -/
def renderReport (s : UrlSets) : Str :=
  "valid urls:\n".data ++ joinNl (sortedEntries s.valid_urls)
    ++ "\n\ninvalid urls:\n".data ++ joinNl (sortedEntries s.invalid_urls)

/-- Bytes written to `output.txt` via `write_all` (src/main.rs:156-164):
exactly the `format!` text. -/
def fileOutput (s : UrlSets) : Str :=
  "valid urls:\n".data ++ joinNl (sortedEntries s.valid_urls)
    ++ "\n\ninvalid urls:\n".data ++ joinNl (sortedEntries s.invalid_urls)

/-- Bytes emitted to stdout via `println!` (src/main.rs:166-170): the
same `format!` text followed by the newline `println!` appends. -/
def streamOutput (s : UrlSets) : Str :=
  ("valid urls:\n".data ++ joinNl (sortedEntries s.valid_urls)
    ++ "\n\ninvalid urls:\n".data ++ joinNl (sortedEntries s.invalid_urls))
    ++ "\n".data

/-- Probe assignment where checking `b` succeeds but resolves to the
string `a` — a resolved address colliding with another raw URL. -/
def mockProbeCollide : Str → Option Str := fun v =>
  if v = "https://b".data then some "a".data else none

/-- Probe assignment where checking `b` succeeds and resolves to the
attempted candidate itself; everything else fails. -/
def mockProbeSelf : Str → Option Str := fun v =>
  if v = "https://b".data then some "https://b".data else none

/-- Probe assignment where the first variation of `a` succeeds but the
server redirects to a different address `https://z`. -/
def mockProbeElsewhere : Str → Option Str := fun v =>
  if v = "https://a".data then some "https://z".data else none

/-- A concrete completion-ordered result stream. -/
def rsStreamA : List (Option CheckedUrl) :=
  [some { is_valid := true, url := "a".data }, none,
   some { is_valid := false, url := "b".data }]

/-- The same results as `rsStreamA` completing in a different order. -/
def rsStreamB : List (Option CheckedUrl) :=
  [some { is_valid := false, url := "b".data },
   some { is_valid := true, url := "a".data }, none]

/-- A finite redirect chain in the ambient network: from `u`, each listed
URL is the redirect target of the previous one. -/
def redirectChain (net : Str → NetStep) : Str → List Str → Prop
  | _, [] => True
  | u, t :: ts => net u = NetStep.redirect t ∧ redirectChain net t ts

/-- The mock network of spec §8: `https://a.example` redirects once to
`https://b.example`, which answers; everything else fails. -/
def mockNet : Str → NetStep := fun s =>
  if s = "https://a.example".data then
    NetStep.redirect "https://b.example".data
  else if s = "https://b.example".data then NetStep.response
  else NetStep.failure

/-- The mock network of spec §8: only `https://dead.example` answers,
resolving to itself. -/
def mockProbeDead : Str → Option Str := fun v =>
  if v = "https://dead.example".data then some "https://dead.example".data
  else none

/-- The four scheme/host candidates in the fixed order of spec §4.2,
written out from the spec's wording. -/
def variationCandidates (u : Str) : List Str :=
  ["https://".data ++ sanitize_url u,
   "https://www.".data ++ sanitize_url u,
   "http://".data ++ sanitize_url u,
   "http://www.".data ++ sanitize_url u]

/-- Index of the leftmost occurrence of `www.` in `l`, if any — the
position at which the regex engine's single `replace` fires. -/
def firstWwwIdx (l : Str) : Option Nat :=
  (List.range l.length).find? (fun i => "www.".data.isPrefixOf (l.drop i))

/-- Spec-side description of single-occurrence `www.` removal (spec §4.1
amended): splice out the leftmost occurrence of `www.`, leave the string
unchanged when there is none. -/
def spec_remove_www (l : Str) : Str :=
  match firstWwwIdx l with
  | none => l
  | some i => l.take i ++ l.drop (i + 4)

/-- Whether `www.` occurs as a substring of `l`. -/
def hasWww : Str → Bool
  | [] => false
  | c :: rest => "www.".data.isPrefixOf (c :: rest) || hasWww rest

lemma ne_of_length_ne {a b : Str} (h : a.length ≠ b.length) : a ≠ b :=
  fun hEq => h (congrArg List.length hEq)

lemma fourCandidates_nodup (p : Str) :
    (["https://".data ++ p, "https://www.".data ++ p,
      "http://".data ++ p, "http://www.".data ++ p] : List Str).Nodup := by
  have h12 : "https://".data ++ p ≠ "https://www.".data ++ p := by
    apply ne_of_length_ne; simp; try omega
  have h13 : "https://".data ++ p ≠ "http://".data ++ p := by
    apply ne_of_length_ne; simp; try omega
  have h14 : "https://".data ++ p ≠ "http://www.".data ++ p := by
    apply ne_of_length_ne; simp; try omega
  have h23 : "https://www.".data ++ p ≠ "http://".data ++ p := by
    apply ne_of_length_ne; simp; try omega
  have h24 : "https://www.".data ++ p ≠ "http://www.".data ++ p := by
    apply ne_of_length_ne; simp; try omega
  have h34 : "http://".data ++ p ≠ "http://www.".data ++ p := by
    apply ne_of_length_ne; simp; try omega
  simp only [List.nodup_cons, List.mem_cons, List.not_mem_nil, or_false,
    not_or, List.nodup_nil, and_true]
  and_intros <;> first | assumption | exact not_false

example : sanitize_url "https://www.google.com".data = "google.com".data := by decide
example : sanitize_url "https://www.google.com/".data = "google.com/".data := by decide
example :
    build_url_variations "https://drupaljedi.com".data =
      ["https://drupaljedi.com".data, "https://www.drupaljedi.com".data,
       "http://drupaljedi.com".data, "http://www.drupaljedi.com".data] := by decide

/-- Claim C1: for every input `u`, the Variation Builder returns the four
candidate URLs `https://<sanitized>`, `https://www.<sanitized>`,
`http://<sanitized>`, `http://www.<sanitized>` in exactly that order, and
appends `u` itself as a fifth entry iff `u` is not string-equal to any of
the first four. -/
theorem variations_match_spec (u : Str) :
    (u ∈ variationCandidates u →
      build_url_variations u = variationCandidates u) ∧
    (u ∉ variationCandidates u →
      build_url_variations u = variationCandidates u ++ [u]) := by
  have e : build_url_variations u =
      if u ∈ variationCandidates u then variationCandidates u
      else variationCandidates u ++ [u] := rfl
  constructor <;> intro h
  · rw [e, if_pos h]
  · rw [e, if_neg h]

/-- Witness for C1: both branches at concrete inputs — the original URL
already among the four, and a bare string that is not. -/
theorem variations_match_spec_inst :
    build_url_variations "https://a.b".data
        = variationCandidates "https://a.b".data ∧
    build_url_variations "x".data
        = variationCandidates "x".data ++ ["x".data] :=
  ⟨(variations_match_spec "https://a.b".data).1 (by decide),
   (variations_match_spec "x".data).2 (by decide)⟩

/-- Claim C10: the variation list always has length 4 or 5, its entries
are pairwise distinct, and it is never empty. -/
theorem variations_length_nodup (u : Str) :
    ((build_url_variations u).length = 4 ∨
        (build_url_variations u).length = 5) ∧
    (build_url_variations u).Nodup ∧ build_url_variations u ≠ [] := by
  have e : build_url_variations u =
      if u ∈ variationCandidates u then variationCandidates u
      else variationCandidates u ++ [u] := rfl
  rw [e]
  by_cases h : u ∈ variationCandidates u
  · rw [if_pos h]
    exact ⟨Or.inl rfl, fourCandidates_nodup _, by simp [variationCandidates]⟩
  · rw [if_neg h]
    refine ⟨Or.inr (by simp [variationCandidates]), ?_, by simp⟩
    rw [List.nodup_append]
    refine ⟨fourCandidates_nodup _, List.nodup_singleton u, ?_⟩
    intro a ha hu
    rw [List.mem_singleton] at hu
    exact h (hu ▸ ha)

lemma firstWwwIdx_cons_pos {c : Char} {rest : Str}
    (hp : "www.".data.isPrefixOf (c :: rest) = true) :
    firstWwwIdx (c :: rest) = some 0 := by
  unfold firstWwwIdx
  rw [List.length_cons, List.range_succ_eq_map]
  exact List.find?_cons_of_pos _ hp

lemma firstWwwIdx_cons_neg {c : Char} {rest : Str}
    (hp : ¬("www.".data.isPrefixOf (c :: rest) = true)) :
    firstWwwIdx (c :: rest) = (firstWwwIdx rest).map Nat.succ := by
  unfold firstWwwIdx
  rw [List.length_cons, List.range_succ_eq_map]
  have h0 : ¬((fun i => "www.".data.isPrefixOf (List.drop i (c :: rest))) 0
      = true) := hp
  have step :
      List.find? (fun i => "www.".data.isPrefixOf (List.drop i (c :: rest)))
          (0 :: List.map Nat.succ (List.range rest.length)) =
        List.find? (fun i => "www.".data.isPrefixOf (List.drop i (c :: rest)))
          (List.map Nat.succ (List.range rest.length)) :=
    List.find?_cons_of_neg _ h0
  rw [step, List.find?_map]
  congr 1

/-- The recursive leftmost-match removal of the embedding agrees with the
index-based description of removing the first `www.` occurrence. -/
theorem remove_www_eq_spec (l : Str) : remove_www l = spec_remove_www l := by
  induction l with
  | nil => rfl
  | cons c rest ih =>
    have e : remove_www (c :: rest) =
        if "www.".data.isPrefixOf (c :: rest) then (c :: rest).drop 4
        else c :: remove_www rest := rfl
    by_cases hp : "www.".data.isPrefixOf (c :: rest) = true
    · rw [e, if_pos hp]
      unfold spec_remove_www
      rw [firstWwwIdx_cons_pos hp]
      simp
    · rw [e, if_neg hp]
      unfold spec_remove_www
      rw [firstWwwIdx_cons_neg hp]
      cases hfi : firstWwwIdx rest with
      | none =>
        rw [ih]
        unfold spec_remove_www
        rw [hfi]
        rfl
      | some i =>
        rw [ih]
        unfold spec_remove_www
        rw [hfi]
        show c :: (List.take i rest ++ List.drop (i + 4) rest) =
          List.take (Nat.succ i) (c :: rest)
            ++ List.drop (Nat.succ i + 4) (c :: rest)
        simp only [Nat.succ_eq_add_one, List.take_succ_cons]
        have h4 : i + 1 + 4 = (i + 4) + 1 := by omega
        rw [h4, List.drop_succ_cons, List.cons_append]

lemma https_not_pre_http (l : Str) :
    "https://".data.isPrefixOf ("http://".data ++ l) = false := by
  simp [List.isPrefixOf]

lemma pre_append (p l : Str) : p.isPrefixOf (p ++ l) = true := by
  induction p with
  | nil => simp [List.isPrefixOf]
  | cons c cs ih => simp [List.isPrefixOf, ih]

lemma remove_www_of_not_hasWww {l : Str} (h : hasWww l = false) :
    remove_www l = l := by
  induction l with
  | nil => rfl
  | cons c rest ih =>
    have e2 : hasWww (c :: rest) =
        ("www.".data.isPrefixOf (c :: rest) || hasWww rest) := rfl
    rw [e2] at h
    rcases Bool.or_eq_false_iff.mp h with ⟨h1, h2⟩
    have e : remove_www (c :: rest) =
        if "www.".data.isPrefixOf (c :: rest) then (c :: rest).drop 4
        else c :: remove_www rest := rfl
    rw [e, if_neg (by simp [h1]), ih h2]

lemma remove_url_protocol_of_no_scheme {l : Str}
    (h1 : "https://".data.isPrefixOf l = false)
    (h2 : "http://".data.isPrefixOf l = false) :
    remove_url_protocol l = l := by
  unfold remove_url_protocol
  rw [if_neg (by simp [h1]), if_neg (by simp [h2])]

/-- Counterexample to claim C2 as stated: the Normalizer output on
`"www.www.x"` is `"www.x"`, which still contains the substring `www.` —
only the first occurrence is removed. -/
theorem sanitize_keeps_second_www :
    sanitize_url "www.www.x".data = "www.x".data ∧
    ∃ a b : Str, sanitize_url "www.www.x".data = a ++ "www.".data ++ b :=
  ⟨by decide, [], "x".data, by decide⟩

/-- Claim C2 amended: the Normalizer removes a leading `http://` or
`https://` (case-sensitive, only at the start, and only when present)
and then removes the FIRST occurrence of the substring `www.` anywhere
in the remaining string (not every occurrence); the empty input yields
the empty output. -/
theorem sanitize_url_spec (l : Str) :
    sanitize_url l = spec_remove_www (remove_url_protocol l) ∧
    remove_url_protocol ("https://".data ++ l) = l ∧
    remove_url_protocol ("http://".data ++ l) = l ∧
    ("https://".data.isPrefixOf l = false →
      "http://".data.isPrefixOf l = false →
      remove_url_protocol l = l) ∧
    sanitize_url ([] : Str) = [] := by
  refine ⟨?_, ?_, ?_, fun h1 h2 => remove_url_protocol_of_no_scheme h1 h2, rfl⟩
  · show remove_www (remove_url_protocol l) = _
    exact remove_www_eq_spec _
  · unfold remove_url_protocol
    rw [if_pos (pre_append _ _)]
    exact List.drop_left "https://".data l
  · unfold remove_url_protocol
    rw [if_neg (by simp [https_not_pre_http]), if_pos (pre_append _ _)]
    exact List.drop_left "http://".data l

/-- Witness for C2 (amended): the no-scheme branch at a concrete input. -/
theorem sanitize_url_spec_inst : remove_url_protocol "x".data = "x".data :=
  (sanitize_url_spec "x".data).2.2.2.1 (by decide) (by decide)

/-- Counterexample to claim C3 as stated: the Normalizer is not
idempotent — on `"www.www.x"` the first pass leaves `"www.x"` and a
second pass removes the remaining `www.`. -/
theorem sanitize_not_idempotent :
    sanitize_url (sanitize_url "www.www.x".data)
      ≠ sanitize_url "www.www.x".data := by decide

/-- Claim C3 amended: the Normalizer is idempotent on every input whose
normalized form neither starts with `http://` or `https://` nor contains
the substring `www.` (in particular on every input with at most one
`www.` occurrence and no scheme token after the leading one). -/
theorem sanitize_idempotent_clean (s : Str)
    (h1 : "https://".data.isPrefixOf (sanitize_url s) = false)
    (h2 : "http://".data.isPrefixOf (sanitize_url s) = false)
    (h3 : hasWww (sanitize_url s) = false) :
    sanitize_url (sanitize_url s) = sanitize_url s := by
  show remove_www (remove_url_protocol (sanitize_url s)) = sanitize_url s
  rw [remove_url_protocol_of_no_scheme h1 h2, remove_www_of_not_hasWww h3]

/-- Witness for C3 (amended): idempotence at a typical URL. -/
theorem sanitize_idempotent_clean_inst :
    sanitize_url (sanitize_url "https://www.google.com".data)
      = sanitize_url "https://www.google.com".data :=
  sanitize_idempotent_clean "https://www.google.com".data
    (by decide) (by decide) (by decide)

lemma probeList_eq_none {probe : Str → Option Str} :
    ∀ {l : List Str}, (∀ v ∈ l, probe v = none) → probeList probe l = none := by
  intro l h
  induction l with
  | nil => rfl
  | cons v rest ih =>
    have e : probeList probe (v :: rest) =
        (match probe v with
         | some final_url => some final_url
         | none => probeList probe rest) := rfl
    rw [e, h v (List.mem_cons_self v rest)]
    exact ih fun w hw => h w (List.mem_cons_of_mem v hw)

lemma probeList_first {probe : Str → Option Str} (pre : List Str) (v : Str)
    (post : List Str) (f : Str) (hpre : ∀ w ∈ pre, probe w = none)
    (hv : probe v = some f) :
    probeList probe (pre ++ v :: post) = some f := by
  induction pre with
  | nil =>
    have e : probeList probe (v :: post) =
        (match probe v with
         | some final_url => some final_url
         | none => probeList probe post) := rfl
    rw [List.nil_append, e, hv]
  | cons w rest ih =>
    have e : probeList probe (w :: (rest ++ v :: post)) =
        (match probe w with
         | some final_url => some final_url
         | none => probeList probe (rest ++ v :: post)) := rfl
    rw [List.cons_append, e, hpre w (List.mem_cons_self w rest)]
    exact ih fun x hx => hpre x (List.mem_cons_of_mem w hx)

/-- Claim C4: the URL Checker probes the variations sequentially in list
order, stopping at the first `Resolved` outcome and never revisiting a
variation: if every variation fails the result is
`{valid := false, url := RawURL}` with the RawURL unchanged, and if the
first succeeding variation resolves to `f` the result is
`{valid := true, url := f}`. -/
theorem check_url_spec (probe : Str → Option Str) (u : Str) :
    ((∀ v ∈ build_url_variations u, probe v = none) →
      check_url probe u = { is_valid := false, url := u }) ∧
    (∀ pre v post f, build_url_variations u = pre ++ v :: post →
      (∀ w ∈ pre, probe w = none) → probe v = some f →
      check_url probe u = { is_valid := true, url := f }) := by
  constructor
  · intro h
    unfold check_url
    rw [probeList_eq_none h]
  · intro pre v post f heq hpre hv
    unfold check_url
    rw [heq, probeList_first pre v post f hpre hv]

/-- Witness for C4: all-variations-fail at `"x"`, and the §8 mock where
`check("http://dead.example")` succeeds on the first (https, bare-host)
variation. -/
theorem check_url_spec_inst :
    check_url (fun _ => none) "x".data
        = { is_valid := false, url := "x".data } ∧
    check_url mockProbeDead "http://dead.example".data
        = { is_valid := true, url := "https://dead.example".data } :=
  ⟨(check_url_spec (fun _ => none) "x".data).1 (fun _ _ => rfl),
   (check_url_spec mockProbeDead "http://dead.example".data).2 []
     "https://dead.example".data
     ["https://www.dead.example".data, "http://dead.example".data,
      "http://www.dead.example".data]
     "https://dead.example".data (by decide) (by decide) (by decide)⟩

/-- Claim C5: the Prober returns `Resolved(finalURL)` whenever a response
is obtained, where `finalURL` is the last redirect target observed (the
candidate itself when zero redirects occur), and `Failed` when the chain
ends in a transport failure. -/
theorem hit_url_spec (net : Str → NetStep) (u : Str) (ts : List Str)
    (fuel : Nat) (hchain : redirectChain net u ts)
    (hfuel : ts.length ≤ fuel) :
    (net (ts.getLastD u) = NetStep.response →
      hit_url net fuel u = some (ts.getLastD u)) ∧
    (net (ts.getLastD u) = NetStep.failure →
      hit_url net fuel u = none) := by
  induction ts generalizing u fuel with
  | nil =>
    refine ⟨fun hr => ?_, fun hr => ?_⟩ <;>
      rw [show ([] : List Str).getLastD u = u from rfl] at hr <;>
      simp [hit_url, hitAux, hr]
  | cons t ts ih =>
    obtain ⟨hstep, hrest⟩ := hchain
    cases fuel with
    | zero => simp at hfuel
    | succ n =>
      have hf : ts.length ≤ n := by
        rw [List.length_cons] at hfuel
        omega
      have e3 : hit_url net (n + 1) u = hitAux net n t t := by
        show hitAux net (n + 1) u u = hitAux net n t t
        rw [hitAux, hstep]
      refine ⟨fun hr => ?_, fun hr => ?_⟩
      · rw [List.getLastD_cons] at hr ⊢
        rw [e3]
        exact (ih t n hrest hf).1 hr
      · rw [List.getLastD_cons] at hr
        rw [e3]
        exact (ih t n hrest hf).2 hr

/-- Witness for C5: the single-redirect resolution of spec §8 and the
all-fail case. -/
theorem hit_url_spec_inst :
    hit_url mockNet 1 "https://a.example".data
        = some "https://b.example".data ∧
    hit_url mockNet 1 "https://dead.example".data = none :=
  ⟨(hit_url_spec mockNet "https://a.example".data
      ["https://b.example".data] 1 ⟨by decide, trivial⟩ (by decide)).1
      (by decide),
   (hit_url_spec mockNet "https://dead.example".data [] 1 trivial
      (by decide)).2 (by decide)⟩

lemma check_url_invalid_url {probe : Str → Option Str} {u : Str}
    (h : (check_url probe u).is_valid = false) :
    (check_url probe u).url = u := by
  unfold check_url at *
  cases hp : probeList probe (build_url_variations u) with
  | none => rfl
  | some f => rw [hp] at h; simp at h

lemma foldRun_valid (probe : Str → Option Str) (joinOk : Str → Bool) :
    ∀ (l : List Str) (acc : UrlSets),
    ((l.map (fun u => if joinOk u then some (check_url probe u) else none)).foldl
        foldStep acc).valid_urls
      = acc.valid_urls ∪
        ((l.filter (fun u => joinOk u && (check_url probe u).is_valid)).map
          (fun u => (check_url probe u).url)).toFinset := by
  intro l
  induction l with
  | nil => intro acc; simp
  | cons u l ih =>
    intro acc
    rw [List.map_cons, List.foldl_cons]
    by_cases hj : joinOk u = true
    · by_cases hv : (check_url probe u).is_valid = true
      · rw [List.filter_cons_of_pos (by simp [hj, hv])]
        rw [if_pos hj]
        have ef : foldStep acc (some (check_url probe u)) =
            { acc with
                valid_urls := insert (check_url probe u).url acc.valid_urls } := by
          simp [foldStep, hv]
        rw [ef, ih]
        simp [Finset.insert_union, Finset.union_insert]
      · rw [List.filter_cons_of_neg (by simp [hj, hv])]
        rw [if_pos hj]
        have ef : foldStep acc (some (check_url probe u)) =
            { acc with
                invalid_urls := insert (check_url probe u).url acc.invalid_urls } := by
          simp [foldStep, hv]
        rw [ef, ih]
    · rw [List.filter_cons_of_neg (by simp [hj])]
      rw [if_neg hj]
      have ef : foldStep acc none = acc := rfl
      rw [ef, ih]

lemma foldRun_invalid (probe : Str → Option Str) (joinOk : Str → Bool) :
    ∀ (l : List Str) (acc : UrlSets),
    ((l.map (fun u => if joinOk u then some (check_url probe u) else none)).foldl
        foldStep acc).invalid_urls
      = acc.invalid_urls ∪
        (l.filter (fun u => joinOk u && !(check_url probe u).is_valid)).toFinset := by
  intro l
  induction l with
  | nil => intro acc; simp
  | cons u l ih =>
    intro acc
    rw [List.map_cons, List.foldl_cons]
    by_cases hj : joinOk u = true
    · by_cases hv : (check_url probe u).is_valid = true
      · rw [List.filter_cons_of_neg (by simp [hj, hv])]
        rw [if_pos hj]
        have ef : foldStep acc (some (check_url probe u)) =
            { acc with
                valid_urls := insert (check_url probe u).url acc.valid_urls } := by
          simp [foldStep, hv]
        rw [ef, ih]
      · rw [List.filter_cons_of_pos (by simp [hj, hv])]
        rw [if_pos hj]
        have hv0 : (check_url probe u).is_valid = false := by
          simpa using hv
        have ef : foldStep acc (some (check_url probe u)) =
            { acc with
                invalid_urls := insert (check_url probe u).url acc.invalid_urls } := by
          simp [foldStep, hv]
        rw [ef, ih, check_url_invalid_url hv0]
        simp [Finset.insert_union, Finset.union_insert]
    · rw [List.filter_cons_of_neg (by simp [hj])]
      rw [if_neg hj]
      have ef : foldStep acc none = acc := rfl
      rw [ef, ih]

lemma runChecks_valid_eq (probe : Str → Option Str) (joinOk : Str → Bool)
    (urls : List Str) :
    (runChecks probe joinOk urls).valid_urls
      = (((uniqueList urls).filter
          (fun u => joinOk u && (check_url probe u).is_valid)).map
          (fun u => (check_url probe u).url)).toFinset := by
  have h := foldRun_valid probe joinOk (uniqueList urls)
    { valid_urls := ∅, invalid_urls := ∅ }
  simpa [runChecks, foldResults] using h

lemma runChecks_invalid_eq (probe : Str → Option Str) (joinOk : Str → Bool)
    (urls : List Str) :
    (runChecks probe joinOk urls).invalid_urls
      = ((uniqueList urls).filter
          (fun u => joinOk u && !(check_url probe u).is_valid)).toFinset := by
  have h := foldRun_invalid probe joinOk (uniqueList urls)
    { valid_urls := ∅, invalid_urls := ∅ }
  simpa [runChecks, foldResults] using h

/-- Counterexample to claim C6 as stated: with raw URLs `a` and `b`,
where every variation of `a` fails and the first variation of `b`
resolves to the string `a`, the string `a` lands in both result sets —
the sets are not disjoint in general. -/
theorem valid_invalid_overlap :
    "a".data ∈ (runChecks mockProbeCollide (fun _ => true)
        ["a".data, "b".data]).valid_urls ∧
    "a".data ∈ (runChecks mockProbeCollide (fun _ => true)
        ["a".data, "b".data]).invalid_urls := by decide

/-- Claim C6 amended: the two result sets are disjoint whenever no
resolved address of a successfully checked URL equals a raw URL whose
check failed (the unconditional disjointness claimed by the spec fails
because the valid set stores resolved addresses while the invalid set
stores raw URLs). -/
theorem runChecks_disjoint (probe : Str → Option Str) (joinOk : Str → Bool)
    (urls : List Str)
    (h : ∀ u ∈ uniqueList urls, ∀ v ∈ uniqueList urls,
      joinOk u = true → joinOk v = true →
      (check_url probe u).is_valid = false →
      (check_url probe v).is_valid = true →
      (check_url probe v).url ≠ u) :
    Disjoint (runChecks probe joinOk urls).valid_urls
      (runChecks probe joinOk urls).invalid_urls := by
  rw [Finset.disjoint_left]
  intro x hxv hxi
  rw [runChecks_valid_eq, List.mem_toFinset, List.mem_map] at hxv
  obtain ⟨v, hvf, hurl⟩ := hxv
  rw [List.mem_filter, Bool.and_eq_true] at hvf
  obtain ⟨hvmem, hjv, hvv⟩ := hvf
  rw [runChecks_invalid_eq, List.mem_toFinset, List.mem_filter,
    Bool.and_eq_true] at hxi
  obtain ⟨humem, hju, hnv⟩ := hxi
  have hufail : (check_url probe x).is_valid = false := by
    simpa using hnv
  exact h x humem v hvmem hju hjv hufail hvv hurl

/-- Witness for C6 (amended): two URLs, one failing and one resolving to
itself; the hypothesis holds and the sets are disjoint. -/
theorem runChecks_disjoint_inst :
    Disjoint (runChecks mockProbeSelf (fun _ => true)
        ["a".data, "b".data]).valid_urls
      (runChecks mockProbeSelf (fun _ => true)
        ["a".data, "b".data]).invalid_urls :=
  runChecks_disjoint mockProbeSelf (fun _ => true) ["a".data, "b".data]
    (by decide)

/-- Counterexample to claim C7 as stated: `http://a` is checked
normally (its unit joins) and succeeds, but its resolved address is the
different string `https://z`, so the raw URL `http://a` appears in
neither result set even though its check unit did not terminate
abnormally. -/
theorem raw_url_in_neither_set :
    "http://a".data ∈ uniqueList ["http://a".data] ∧
    "http://a".data ∉ (runChecks mockProbeElsewhere (fun _ => true)
        ["http://a".data]).valid_urls ∧
    "http://a".data ∉ (runChecks mockProbeElsewhere (fun _ => true)
        ["http://a".data]).invalid_urls := by decide

/-- Claim C7 amended: after deduplication, the invalid set is exactly
the deduplicated RawURLs whose unit joined and whose check failed (each
kept verbatim), and the valid set is exactly the resolved addresses of
the deduplicated RawURLs whose unit joined and whose check succeeded;
units that terminate abnormally contribute nothing. A RawURL can
therefore be absent from both sets either because its unit crashed or
because it succeeded with a resolved address different from itself. -/
theorem runChecks_sets_exact (probe : Str → Option Str)
    (joinOk : Str → Bool) (urls : List Str) :
    (runChecks probe joinOk urls).valid_urls
      = (((uniqueList urls).filter
          (fun u => joinOk u && (check_url probe u).is_valid)).map
          (fun u => (check_url probe u).url)).toFinset ∧
    (runChecks probe joinOk urls).invalid_urls
      = ((uniqueList urls).filter
          (fun u => joinOk u && !(check_url probe u).is_valid)).toFinset :=
  ⟨runChecks_valid_eq probe joinOk urls,
   runChecks_invalid_eq probe joinOk urls⟩

lemma foldStep_comm (acc : UrlSets) (r1 r2 : Option CheckedUrl) :
    foldStep (foldStep acc r1) r2 = foldStep (foldStep acc r2) r1 := by
  rcases r1 with _ | c1 <;> rcases r2 with _ | c2 <;> simp only [foldStep]
  by_cases h1 : c1.is_valid <;> by_cases h2 : c2.is_valid <;>
    simp [h1, h2, Finset.Insert.comm]

lemma foldResults_perm {rs1 rs2 : List (Option CheckedUrl)}
    (h : rs1.Perm rs2) : foldResults rs1 = foldResults rs2 := by
  have key : ∀ acc, rs1.foldl foldStep acc = rs2.foldl foldStep acc := by
    induction h with
    | nil => intro acc; rfl
    | cons x _ ih =>
      intro acc
      rw [List.foldl_cons, List.foldl_cons, ih]
    | swap x y l =>
      intro acc
      rw [List.foldl_cons, List.foldl_cons, List.foldl_cons, List.foldl_cons,
        foldStep_comm]
    | trans _ _ ih1 ih2 =>
      intro acc
      rw [ih1, ih2]
  exact key _

/-- Claim C8: the rendered report is exactly
`valid urls:\n<sorted valid>\n\ninvalid urls:\n<sorted invalid>`, each
section sorted lexicographically with no duplicate entries, and the
rendered text is the same for every completion order (permutation) of
the underlying result stream. -/
theorem report_deterministic (rs1 rs2 : List (Option CheckedUrl))
    (h : rs1.Perm rs2) :
    renderReport (foldResults rs1) = renderReport (foldResults rs2) ∧
    renderReport (foldResults rs1) =
      "valid urls:\n".data
        ++ joinNl (sortedEntries (foldResults rs1).valid_urls)
        ++ "\n\ninvalid urls:\n".data
        ++ joinNl (sortedEntries (foldResults rs1).invalid_urls) ∧
    (sortedEntries (foldResults rs1).valid_urls).Sorted (· ≤ ·) ∧
    (sortedEntries (foldResults rs1).valid_urls).Nodup ∧
    (sortedEntries (foldResults rs1).invalid_urls).Sorted (· ≤ ·) ∧
    (sortedEntries (foldResults rs1).invalid_urls).Nodup :=
  ⟨congrArg renderReport (foldResults_perm h), rfl,
   Finset.sort_sorted _ _, Finset.sort_nodup _ _,
   Finset.sort_sorted _ _, Finset.sort_nodup _ _⟩

/-- Witness for C8: two concrete streams that are permutations of each
other render identically. -/
theorem report_deterministic_inst :
    renderReport (foldResults rsStreamA)
      = renderReport (foldResults rsStreamB) :=
  (report_deterministic rsStreamA rsStreamB (by decide)).1

/-- Counterexample to claim C9 as stated: already on empty result sets
the file bytes and the stream bytes differ — `println!` appends a
trailing newline that `write_all` does not receive. -/
theorem file_stream_not_identical :
    fileOutput { valid_urls := ∅, invalid_urls := ∅ }
      ≠ streamOutput { valid_urls := ∅, invalid_urls := ∅ } := by
  apply ne_of_length_ne
  rw [show streamOutput { valid_urls := ∅, invalid_urls := ∅ }
      = fileOutput { valid_urls := ∅, invalid_urls := ∅ } ++ "\n".data
    from rfl]
  rw [List.length_append, show ("\n".data).length = 1 from rfl]
  omega

/-- Claim C9 amended: the two sinks receive the same rendered report
text except that the operator-facing stream gets one extra trailing
newline: the stream bytes are exactly the file bytes followed by
`"\n"`. -/
theorem stream_eq_file_with_newline (s : UrlSets) :
    streamOutput s = fileOutput s ++ "\n".data := rfl
